import Mathlib

/-!
Verification of the run-orchestration core of the RL Gym Visualizer
repository: the run lifecycle state machine, the streaming behaviour for
metrics, frames and events, the frame-normalization adapter, and the
frontend hooks (useTraining, useLiveFrames, useMetricsStream) together
with the LeftSidebar algorithm selection.

The backend implementation files (FastAPI routes, run manager, training
callback, evaluator, SSE/WebSocket streaming) are not present in the
repository snapshot.  Where a definition embeds backend behaviour it is
modelled from the repository's own documents: docs/api-contract.md
(endpoint responses, the Valid Transitions table, error codes, SSE
throttling), errors.md (the frame-callback zero-subscriber skip and the
frame dtype normalization fix, which quotes the backend code verbatim)
and backend/app/db/schema.sql (AUTOINCREMENT event ids).  Frontend
definitions are translated directly from the TypeScript sources under
frontend/src.
-/

/-- Run status values, from the status union of ApiRun in
frontend/src/services/api.ts and the status column of
backend/app/db/schema.sql. -/
inductive RunStatus where
  | pending
  | training
  | evaluating
  | completed
  | stopped
  | failed
  deriving DecidableEq, Repr

/-- Control-plane operations and executor outcome reports that drive a
run's status: the triggers of the Valid Transitions table in
docs/api-contract.md (start, stop, evaluate, training/evaluation
finishing, an error during training/evaluation). -/
inductive LifecycleOp where
  | start
  | stop
  | evaluate
  | execSuccess
  | execError
  deriving DecidableEq, Repr

/-- Control-plane errors: a 409 conflict names the offending status
(docs/api-contract.md error codes: conflict, already_running,
not_running); no_model is the 409 returned when evaluating a run that
never produced a checkpoint. -/
inductive LifecycleError where
  | conflictError (offending : RunStatus)
  | noModel
  deriving DecidableEq, Repr

/-- Modelled from the spec: the backend run lifecycle manager is absent
from the snapshot; this state carries the run's status, the terminal
status a run held before entering evaluating (the Valid Transitions
table sends evaluating back to completed or stopped according to where
it came from), and whether a usable model checkpoint exists. -/
structure RunState where
  status : RunStatus
  priorTerminal : RunStatus
  hasModel : Bool
  deriving DecidableEq, Repr

/-- Modelled from the spec: one transition attempt of the lifecycle
manager, following the Valid Transitions table of docs/api-contract.md
lines 786..798 and its error codes (409 for any pair not in the table).
Stop on a training run immediately yields status stopped, matching the
documented 200 response of POST /runs/id/stop (docs/api-contract.md
lines 257..280, status field "stopped") and the assertion of
test-comprehensive.sh lines 122..131. -/
def stepRun (r : RunState) (op : LifecycleOp) : Except LifecycleError RunState :=
  match r.status, op with
  | .pending, .start => .ok { r with status := .training }
  | .training, .stop => .ok { r with status := .stopped }
  | .training, .execSuccess => .ok { r with status := .completed }
  | .training, .execError => .ok { r with status := .failed }
  | .completed, .evaluate =>
      if r.hasModel then
        .ok { r with status := .evaluating, priorTerminal := .completed }
      else .error .noModel
  | .stopped, .evaluate =>
      if r.hasModel then
        .ok { r with status := .evaluating, priorTerminal := .stopped }
      else .error .noModel
  | .evaluating, .execSuccess => .ok { r with status := r.priorTerminal }
  | .evaluating, .execError => .ok { r with status := .failed }
  | s, _ => .error (.conflictError s)

/-- The (status, operation) pairs listed in the Valid Transitions table
of docs/api-contract.md (equivalently the table of the design spec):
pending-Start, training-success/Stop/error, completed/stopped-Evaluate,
evaluating-success/error. -/
def legalPair : RunStatus → LifecycleOp → Bool
  | .pending, .start => true
  | .training, .stop => true
  | .training, .execSuccess => true
  | .training, .execError => true
  | .completed, .evaluate => true
  | .stopped, .evaluate => true
  | .evaluating, .execSuccess => true
  | .evaluating, .execError => true
  | _, _ => false

/-- Hyperparameters of RunConfig, from frontend/src/services/api.ts.
Floating-point values are embedded as rationals. -/
structure Hyperparameters where
  learning_rate : ℚ
  total_timesteps : ℕ
  deriving DecidableEq, Repr

/-- RunConfig, from frontend/src/services/api.ts. -/
structure RunConfig where
  env_id : String
  algorithm : String
  hyperparameters : Hyperparameters
  seed : Option ℕ
  deriving DecidableEq, Repr

/-- Progress counters of ApiRun, from frontend/src/services/api.ts. -/
structure RunProgress where
  current_timestep : ℕ
  total_timesteps : ℕ
  percent_complete : ℚ
  episodes_completed : ℕ
  deriving DecidableEq, Repr

/-- The latest_metrics field of ApiRun, from frontend/src/services/api.ts. -/
structure LatestMetrics where
  episode : ℕ
  reward : ℚ
  length : ℕ
  loss : Option ℚ
  fps : ℚ
  deriving DecidableEq, Repr

/-- ApiRun, the run record held client-side, from
frontend/src/services/api.ts. -/
structure ApiRun where
  id : String
  env_id : String
  algorithm : String
  status : RunStatus
  config : RunConfig
  progress : Option RunProgress
  latest_metrics : Option LatestMetrics
  created_at : String
  updated_at : String
  started_at : Option String
  completed_at : Option String
  deriving DecidableEq, Repr

/-- Outcome of the stopTraining API call as seen by the useTraining
hook: the fetch either resolves or throws. -/
inductive StopCallResult where
  | success
  | failure (msg : String)
  deriving DecidableEq, Repr

/-- The currentRun update performed by useTraining.stop
(frontend hook, unnamed/part_008 lines 52..66): with no current run the
hook returns without calling the API; when stopTraining resolves it maps
the previous run to the same run with status stopped; when the call
throws it records the error and leaves the run unchanged. -/
def uiStop (currentRun : Option ApiRun) (call : StopCallResult) : Option ApiRun :=
  match currentRun, call with
  | none, _ => none
  | some prev, .success => some { prev with status := .stopped }
  | some prev, .failure _ => some prev

/-- A concrete run in status training, used to evaluate the stop path at
one input. -/
def sampleTrainingRun : ApiRun :=
  { id := "550e8400-e29b-41d4-a716-446655440000"
  , env_id := "CartPole-v1"
  , algorithm := "PPO"
  , status := .training
  , config :=
      { env_id := "CartPole-v1"
      , algorithm := "PPO"
      , hyperparameters := { learning_rate := 3 / 10000, total_timesteps := 10000 }
      , seed := none }
  , progress := none
  , latest_metrics := none
  , created_at := "2026-01-29T10:00:00Z"
  , updated_at := "2026-01-29T10:01:00Z"
  , started_at := some "2026-01-29T10:01:00Z"
  , completed_at := none }

/-- C1 counterexample: at a concrete training run, invoking Stop does
change the run's status at once.  The lifecycle step for stop returns a
run whose status is already stopped (the documented 200 response of
POST /runs/id/stop carries status "stopped"), and the client-side state
held by useTraining is set to stopped as soon as the call resolves,
before any executor report. -/
theorem c1_stop_flips_immediately_counterexample :
    (uiStop (some sampleTrainingRun) .success).map ApiRun.status = some .stopped
    ∧ stepRun { status := .training, priorTerminal := .completed, hasModel := true } .stop
      = .ok { status := .stopped, priorTerminal := .completed, hasModel := true } := by
  exact ⟨rfl, rfl⟩

/-- C1 (amended): for every run in the training state, invoking Stop
itself flips the status: the lifecycle step returns the run with status
stopped immediately (matching the contract's 200 response with status
"stopped" and the stop assertion of test-comprehensive.sh), and the
client-side run state held by useTraining is set to stopped as soon as
stopTraining resolves, without waiting for the executor. -/
theorem c1_stop_flips_immediately (r : RunState) (run : ApiRun)
    (h : r.status = .training) :
    stepRun r .stop = .ok { r with status := .stopped }
    ∧ uiStop (some run) .success = some { run with status := .stopped } := by
  obtain ⟨s, p, m⟩ := r
  cases h
  exact ⟨rfl, rfl⟩

/-- C1 witness: the amended theorem applied to a concrete training run. -/
theorem c1_stop_flips_immediately_witness :
    stepRun { status := .training, priorTerminal := .completed, hasModel := true } .stop
      = .ok { status := .stopped, priorTerminal := .completed, hasModel := true }
    ∧ uiStop (some sampleTrainingRun) .success
      = some { sampleTrainingRun with status := .stopped } :=
  c1_stop_flips_immediately
    { status := .training, priorTerminal := .completed, hasModel := true }
    sampleTrainingRun rfl

/-- C2: for every (status, operation) pair not listed in the transition
table, the lifecycle step returns a Conflict error naming the offending
status, and produces no successor state (the run's status is left
unchanged; there is no silent no-op). -/
theorem c2_transition_totality (r : RunState) (op : LifecycleOp)
    (h : legalPair r.status op = false) :
    stepRun r op = .error (.conflictError r.status) := by
  obtain ⟨s, p, m⟩ := r
  cases s <;> cases op <;> simp_all [stepRun, legalPair]

/-- C2 witness: starting a completed run is not in the table and yields
the Conflict error naming the completed status. -/
theorem c2_transition_totality_witness :
    stepRun { status := .completed, priorTerminal := .completed, hasModel := true } .start
      = .error (.conflictError .completed) :=
  c2_transition_totality
    { status := .completed, priorTerminal := .completed, hasModel := true } .start rfl

/-- C4 counterexample: at a concrete training run, the first Stop
transitions the run to stopped, and a second Stop then returns the
Conflict error naming the stopped status (the contract's 409
not_running), not success. -/
theorem c4_second_stop_conflicts_counterexample :
    stepRun { status := .training, priorTerminal := .completed, hasModel := true } .stop
      = .ok { status := .stopped, priorTerminal := .completed, hasModel := true }
    ∧ stepRun { status := .stopped, priorTerminal := .completed, hasModel := true } .stop
      = .error (.conflictError .stopped) := by
  exact ⟨rfl, rfl⟩

/-- C4 (amended): two Stop calls in quick succession on a training run
produce exactly one terminal transition: the first moves the run to
stopped, and the second fails with the Conflict error naming the stopped
status (409 not_running) rather than being treated as an idempotent
success; the run ends in stopped. -/
theorem c4_second_stop_conflicts (r : RunState) (h : r.status = .training) :
    ∃ r', stepRun r .stop = .ok r' ∧ r'.status = .stopped
      ∧ stepRun r' .stop = .error (.conflictError .stopped) := by
  obtain ⟨s, p, m⟩ := r
  cases h
  exact ⟨_, rfl, rfl, rfl⟩

/-- C4 witness: the amended theorem applied to a concrete training run. -/
theorem c4_second_stop_conflicts_witness :
    ∃ r', stepRun { status := .training, priorTerminal := .completed, hasModel := true } .stop
        = .ok r' ∧ r'.status = .stopped
      ∧ stepRun r' .stop = .error (.conflictError .stopped) :=
  c4_second_stop_conflicts
    { status := .training, priorTerminal := .completed, hasModel := true } rfl

/-- Modelled from the spec: the per-run frame topic of the backend
streaming hub.  From errors.md section 1.1, the training frame callback
skips rendering and publishing entirely when the run has zero frame
subscribers (get_subscriber_count equal to zero), and a new WebSocket
subscriber is greeted with a status message, not a frame
(docs/api-contract.md, Live Frames section): there is no latest-frame
snapshot on subscribe, so a subscriber only receives frames published
after it connected.  Frame payloads are abstracted as naturals;
each subscriber is a pair of an identifier and the list of frames it has
received, in delivery order. -/
structure FrameHubState where
  subscribers : List (ℕ × List ℕ)
  deriving DecidableEq, Repr

/-- Registering a frame subscriber: it starts with an empty received
list (no snapshot is delivered). -/
def subscribeFrames (s : FrameHubState) (sid : ℕ) : FrameHubState :=
  { subscribers := s.subscribers ++ [(sid, [])] }

/-- Publishing one frame: skipped entirely when there are no
subscribers (errors.md section 1.1); otherwise the frame is delivered to
every current subscriber. -/
def publishFrame (s : FrameHubState) (f : ℕ) : FrameHubState :=
  if s.subscribers.isEmpty then s
  else { subscribers := s.subscribers.map (fun sub => (sub.1, sub.2 ++ [f])) }

/-- The frames a given subscriber has received so far, none if it is not
registered. -/
def receivedFrames (s : FrameHubState) (sid : ℕ) : Option (List ℕ) :=
  (s.subscribers.find? (fun sub => sub.1 = sid)).map Prod.snd

theorem find?_append_of_none {α : Type} (p : α → Bool) (l₁ l₂ : List α)
    (h : l₁.find? p = none) : (l₁ ++ l₂).find? p = l₂.find? p := by
  simp [List.find?_append, h]

theorem find?_fst_map_snd (l : List (ℕ × List ℕ)) (sid : ℕ) (f : ℕ) :
    (l.map (fun sub => (sub.1, sub.2 ++ [f]))).find? (fun sub => sub.1 = sid)
      = (l.find? (fun sub => sub.1 = sid)).map (fun sub => (sub.1, sub.2 ++ [f])) := by
  induction l with
  | nil => rfl
  | cons x xs ih =>
      by_cases hx : x.1 = sid
      · simp [List.find?_cons, hx]
      · simp [List.find?_cons, hx, ih]

/-- C3 counterexample: in a run where one subscriber is connected and a
frame has been published, a second subscriber that subscribes after that
publish has received nothing, where the claim demands it immediately
receive the latest published frame. -/
theorem c3_no_snapshot_counterexample :
    receivedFrames (subscribeFrames (publishFrame (subscribeFrames ⟨[]⟩ 1) 7) 2) 2 = some []
    ∧ (some ([] : List ℕ) ≠ some [7]) := by
  exact ⟨rfl, by decide⟩

/-- C3 (amended): a frame subscriber receives no snapshot on subscribe:
a newly registered subscriber has received nothing (even when frames
were published before it subscribed), it receives exactly the frames
published after it subscribed, and a frame published while the topic has
zero subscribers is skipped entirely; correctness of the live feed
therefore depends on subscribing before the producer starts. -/
theorem c3_subscribe_semantics (s : FrameHubState) (sid : ℕ) (f : ℕ)
    (hfresh : s.subscribers.find? (fun sub => sub.1 = sid) = none) :
    receivedFrames (subscribeFrames s sid) sid = some []
    ∧ receivedFrames (publishFrame (subscribeFrames s sid) f) sid = some [f]
    ∧ (s.subscribers = [] → publishFrame s f = s) := by
  refine ⟨?_, ?_, ?_⟩
  · unfold receivedFrames subscribeFrames
    rw [find?_append_of_none _ _ _ hfresh]
    simp
  · unfold receivedFrames publishFrame subscribeFrames
    have hne : (s.subscribers ++ [(sid, ([] : List ℕ))]).isEmpty = false := by
      simp
    rw [hne]
    simp only [Bool.false_eq_true, if_false]
    rw [find?_fst_map_snd, find?_append_of_none _ _ _ hfresh]
    simp
  · intro hempty
    unfold publishFrame
    rw [hempty]
    rfl

/-- C3 witness: the amended theorem applied to a hub that already has a
subscriber with one delivered frame, and a fresh subscriber id. -/
theorem c3_subscribe_semantics_witness :
    receivedFrames (subscribeFrames ⟨[(1, [5])]⟩ 2) 2 = some []
    ∧ receivedFrames (publishFrame (subscribeFrames ⟨[(1, [5])]⟩ 2) 9) 2 = some [9]
    ∧ ((⟨[(1, [5])]⟩ : FrameHubState).subscribers = []
        → publishFrame ⟨[(1, [5])]⟩ 9 = ⟨[(1, [5])]⟩) :=
  c3_subscribe_semantics ⟨[(1, [5])]⟩ 2 9 (by decide)

/-- LiveFrameState, the single frame kept by useLiveFrames
(frontend/src/hooks/useLiveFrames.ts lines 6..12).  Rewards are embedded
as rationals; frameData is the base64 image string. -/
structure LiveFrameState where
  frameData : Option String
  episode : ℕ
  step : ℕ
  reward : ℚ
  totalReward : ℚ
  deriving DecidableEq, Repr

/-- FrameData, the frame message of the frames WebSocket, from
frontend/src/services/api.ts lines 205..213. -/
structure FrameMsgData where
  data : String
  timestamp : String
  episode : ℕ
  step : ℕ
  reward : ℚ
  total_reward : ℚ
  deriving DecidableEq, Repr

/-- The server-to-client messages of the frames WebSocket handled by
ws.onmessage in frontend/src/hooks/useLiveFrames.ts lines 94..117:
frame, status, end and error messages. -/
inductive WsServerMsg where
  | frame (fd : FrameMsgData)
  | statusMsg
  | endMsg
  | errMsg (message : String)
  deriving DecidableEq, Repr

/-- The LiveFrameState built from a frame message by ws.onmessage
(useLiveFrames.ts lines 100..106). -/
def toLiveFrame (fd : FrameMsgData) : LiveFrameState :=
  { frameData := some fd.data
  , episode := fd.episode
  , step := fd.step
  , reward := fd.reward
  , totalReward := fd.total_reward }

/-- The effect of one WebSocket message on the frame state held by
useLiveFrames (ws.onmessage, lines 94..117): a frame message replaces
the single retained frame wholesale; status, end and error messages do
not touch it. -/
def onFrameMessage (cur : Option LiveFrameState) (m : WsServerMsg) : Option LiveFrameState :=
  match m with
  | .frame fd => some (toLiveFrame fd)
  | .statusMsg => cur
  | .endMsg => cur
  | .errMsg _ => cur

/-- The frame state after a sequence of WebSocket messages. -/
def processMessages (cur : Option LiveFrameState) (ms : List WsServerMsg) : Option LiveFrameState :=
  ms.foldl onFrameMessage cur

/-- The rewardHistory update of the useMetricsStream metrics listener
(frontend hook, unnamed/part_009 lines 64..68): append the new reward
and keep the last 100 entries (slice with negative index 100). -/
def pushReward (hist : List ℚ) (r : ℚ) : List ℚ :=
  (hist ++ [r]).drop ((hist ++ [r]).length - 100)

theorem getLast?_append_singleton {α : Type} (l : List α) (x : α) :
    (l ++ [x]).getLast? = some x := by
  induction l with
  | nil => rfl
  | cons y ys ih =>
      rw [List.cons_append, List.getLast?_cons]
      simp [ih]

theorem pushReward_length_le (hist : List ℚ) (r : ℚ) :
    (pushReward hist r).length ≤ 100 := by
  unfold pushReward
  rw [List.length_drop]
  omega

theorem foldl_pushReward_length_le (rs : List ℚ) :
    ∀ hist : List ℚ, hist.length ≤ 100 → (rs.foldl pushReward hist).length ≤ 100 := by
  induction rs with
  | nil => intro hist h; simpa using h
  | cons r rs ih =>
      intro hist _
      rw [List.foldl_cons]
      exact ih _ (pushReward_length_le hist r)

theorem pushReward_getLast? (hist : List ℚ) (r : ℚ) :
    (pushReward hist r).getLast? = some r := by
  unfold pushReward
  rw [List.drop_append_eq_append_drop]
  have h1 : (hist ++ [r]).length - 100 - hist.length = 0 := by
    rw [List.length_append, List.length_singleton]
    omega
  rw [h1]
  exact getLast?_append_singleton _ r

/-- C8: the frontend retains at most the single most-recent frame: the
frame state of useLiveFrames is one optional LiveFrameState, and after
any message history ending in a frame message the retained state is
exactly that last frame, independent of everything retained before;
metric rewards, in contrast, accumulate into a history bounded at 100
entries whose newest entry is the last pushed reward. -/
theorem c8_latest_frame_cache (cur : Option LiveFrameState)
    (ms : List WsServerMsg) (fd : FrameMsgData) :
    processMessages cur (ms ++ [.frame fd]) = some (toLiveFrame fd)
    ∧ (∀ rs : List ℚ, ((rs.foldl pushReward []).length ≤ 100))
    ∧ (∀ hist r, (pushReward hist r).getLast? = some r) := by
  refine ⟨?_, ?_, ?_⟩
  · unfold processMessages
    rw [List.foldl_append]
    rfl
  · intro rs
    exact foldl_pushReward_length_le rs [] (by simp)
  · intro hist r
    exact pushReward_getLast? hist r

/-- WebSocket readyState values as used by the same-run guard of
useLiveFrames.connect (readyState compared to WebSocket.OPEN). -/
inductive WsReadyState where
  | connecting
  | wsOpen
  | closing
  | wsClosed
  deriving DecidableEq, Repr

/-- A WebSocket object as held in wsRef by useLiveFrames: identified so
that closing or replacing it is observable, with its url and readyState. -/
structure WsSocket where
  sid : ℕ
  url : String
  readyState : WsReadyState
  deriving DecidableEq, Repr

/-- The API base URL of frontend/src/services/api.ts line 6 (the
development default). -/
def API_BASE_URL : String := "http://localhost:8000/api/v1"

/-- getFramesWebSocketUrl of frontend/src/services/api.ts lines
218..221: the base URL with its leading http replaced by ws, then the
per-run frames path with the fps query parameter. -/
def getFramesWebSocketUrl (runId : String) (fps : ℕ) : String :=
  "ws://localhost:8000/api/v1" ++ "/runs/" ++ runId ++ "/ws/frames?fps=" ++ toString fps

/-- The mutable refs and state of useLiveFrames
(frontend/src/hooks/useLiveFrames.ts lines 33..39), plus a counter for
minting fresh socket identities. -/
structure FramesHookState where
  wsRef : Option WsSocket
  runIdRef : Option String
  isConnected : Bool
  frame : Option LiveFrameState
  errorMsg : Option String
  isPaused : Bool
  nextSid : ℕ
  deriving DecidableEq, Repr

/-- useLiveFrames.disconnect (lines 51..59): close and drop the socket,
clear the run id, connection flag and pause flag. -/
def framesDisconnect (s : FramesHookState) : FramesHookState :=
  { s with wsRef := none, runIdRef := none, isConnected := false, isPaused := false }

/-- What connect returned/did: the already-connected guard resolves at
once; otherwise a new socket is opened (identified by its sid). -/
inductive ConnectOutcome where
  | resolvedImmediately
  | openedNew (sid : ℕ)
  deriving DecidableEq, Repr

/-- useLiveFrames.connect (lines 69..92): if already connected for the
same run (runIdRef equal to runId and the current socket open) it
returns a resolved promise without touching anything; otherwise it
disconnects any existing socket, clears error and frame, and opens a new
WebSocket for the run, recording the run id. -/
def framesConnect (s : FramesHookState) (runId : String) (fps : ℕ) :
    FramesHookState × ConnectOutcome :=
  if s.runIdRef = some runId ∧ s.wsRef.map WsSocket.readyState = some .wsOpen then
    (s, .resolvedImmediately)
  else
    let s1 := framesDisconnect s
    let s2 := { s1 with errorMsg := none, frame := none }
    let sock : WsSocket :=
      { sid := s.nextSid
      , url := getFramesWebSocketUrl runId fps
      , readyState := .connecting }
    ({ s2 with wsRef := some sock, runIdRef := some runId, nextSid := s.nextSid + 1 },
     .openedNew s.nextSid)

/-- C10: connect is idempotent per run: calling connect for a run that
the hook is already connected to (same run id, current socket open)
returns a resolved promise and leaves the entire hook state unchanged —
the existing socket is not closed and no new socket is opened. -/
theorem c10_connect_idempotent (s : FramesHookState) (runId : String) (fps : ℕ)
    (sock : WsSocket)
    (h1 : s.runIdRef = some runId) (h2 : s.wsRef = some sock)
    (h3 : sock.readyState = .wsOpen) :
    framesConnect s runId fps = (s, .resolvedImmediately) := by
  unfold framesConnect
  rw [if_pos]
  exact ⟨h1, by rw [h2, Option.map_some', h3]⟩

/-- C10 witness: the theorem applied to a hook state holding an open
socket for run run-1. -/
theorem c10_connect_idempotent_witness :
    framesConnect
      { wsRef := some { sid := 0, url := getFramesWebSocketUrl "run-1" 15, readyState := .wsOpen }
      , runIdRef := some "run-1"
      , isConnected := true
      , frame := none
      , errorMsg := none
      , isPaused := false
      , nextSid := 1 } "run-1" 15
    = ({ wsRef := some { sid := 0, url := getFramesWebSocketUrl "run-1" 15, readyState := .wsOpen }
       , runIdRef := some "run-1"
       , isConnected := true
       , frame := none
       , errorMsg := none
       , isPaused := false
       , nextSid := 1 }, .resolvedImmediately) :=
  c10_connect_idempotent _ "run-1" 15
    { sid := 0, url := getFramesWebSocketUrl "run-1" 15, readyState := .wsOpen }
    rfl rfl rfl

/-- ApiEnvironment, the environment metadata record, from
frontend/src/services/api.ts lines 11..21 (action_space_type kept as a
string). -/
structure ApiEnvironment where
  id : String
  name : String
  display_id : String
  action_space_type : String
  action_space_size : ℕ
  obs_space_type : String
  obs_space_dims : ℕ
  description : String
  supported_algorithms : List String
  deriving DecidableEq, Repr

/-- The supported-algorithms resolution of LeftSidebar
(frontend/src/components/LeftSidebar.tsx lines 50..51): find the
selected environment by id; its supported_algorithms if found, the
fallback list with PPO otherwise. -/
def supportedAlgorithmsFor (environments : List ApiEnvironment)
    (selectedEnvId : Option String) : List String :=
  match environments.find? (fun e => selectedEnvId = some e.id) with
  | some env => env.supported_algorithms
  | none => ["PPO"]

/-- effectiveAlgorithm of LeftSidebar (line 55): the chosen algorithm if
the selected environment supports it, PPO otherwise. -/
def effectiveAlgorithm (environments : List ApiEnvironment)
    (selectedEnvId : Option String) (algorithm : String) : String :=
  if algorithm ∈ supportedAlgorithmsFor environments selectedEnvId then algorithm
  else "PPO"

/-- Modelled from the spec: the backend environment registry is absent
from the snapshot; the environments served by GET /environments are
taken verbatim from docs/api-contract.md lines 37..71. -/
def lunarLanderEnv : ApiEnvironment :=
  { id := "LunarLander-v2", name := "LunarLander-v2", display_id := "ID:01"
  , action_space_type := "Discrete", action_space_size := 4
  , obs_space_type := "Box", obs_space_dims := 8
  , description := "Land a spacecraft on the moon"
  , supported_algorithms := ["PPO", "DQN"] }

/-- CartPole-v1 from docs/api-contract.md lines 49..59. -/
def cartPoleEnv : ApiEnvironment :=
  { id := "CartPole-v1", name := "CartPole-v1", display_id := "ID:02"
  , action_space_type := "Discrete", action_space_size := 2
  , obs_space_type := "Box", obs_space_dims := 4
  , description := "Balance a pole on a cart"
  , supported_algorithms := ["PPO", "DQN"] }

/-- BipedalWalker-v3 from docs/api-contract.md lines 60..70: a
continuous-action environment supporting only PPO. -/
def bipedalWalkerEnv : ApiEnvironment :=
  { id := "BipedalWalker-v3", name := "BipedalWalker-v3", display_id := "ID:03"
  , action_space_type := "Continuous", action_space_size := 4
  , obs_space_type := "Box", obs_space_dims := 24
  , description := "Teach a robot to walk"
  , supported_algorithms := ["PPO"] }

/-- The environment list served by the backend, per the contract. -/
def contractEnvironments : List ApiEnvironment :=
  [lunarLanderEnv, cartPoleEnv, bipedalWalkerEnv]

/-- C9: for every selected environment among those the backend serves
and every currently chosen algorithm string, the effective algorithm
computed by LeftSidebar is a member of that environment's
supported_algorithms list: an unsupported choice (such as DQN on the
continuous-action BipedalWalker) falls back to PPO, which every served
environment supports, so an unsupported algorithm is never submitted. -/
theorem c9_effective_algorithm_supported (sel : String) (algo : String)
    (env : ApiEnvironment)
    (hfind : contractEnvironments.find? (fun e => (some sel : Option String) = some e.id)
      = some env) :
    effectiveAlgorithm contractEnvironments (some sel) algo ∈ env.supported_algorithms := by
  have hmem : env ∈ contractEnvironments := List.mem_of_find?_eq_some hfind
  have hppo : "PPO" ∈ env.supported_algorithms := by
    simp only [contractEnvironments, List.mem_cons, List.not_mem_nil, or_false] at hmem
    rcases hmem with rfl | rfl | rfl <;> decide
  unfold effectiveAlgorithm supportedAlgorithmsFor
  rw [hfind]
  by_cases halgo : algo ∈ env.supported_algorithms
  · rw [if_pos halgo]; exact halgo
  · rw [if_neg halgo]; exact hppo

/-- C9 witness: with CartPole-v1 selected and the unsupported choice
SAC, the effective algorithm is still one of CartPole's supported
algorithms. -/
theorem c9_effective_algorithm_supported_witness :
    effectiveAlgorithm contractEnvironments (some "CartPole-v1") "SAC"
      ∈ cartPoleEnv.supported_algorithms :=
  c9_effective_algorithm_supported "CartPole-v1" "SAC" cartPoleEnv (by decide)

/-- A raw pixel value from an environment render, tagged by the source
array's dtype kind: floating point (embedded as a rational, assumed
range 0..1), already uint8, or some other integer dtype. -/
inductive RawPixel where
  | floatVal (x : ℚ)
  | u8 (v : Fin 256)
  | otherInt (v : ℤ)
  deriving DecidableEq, Repr

/-- Modelled from the spec: the frame normalization of the training
callback (backend/app/training/callback.py, absent from the snapshot),
quoted verbatim in errors.md section 2.1: a floating dtype frame is
clipped to [0,1], scaled by 255 and truncated to uint8; any other
non-uint8 dtype is coerced by a truncating cast (modulo 256); uint8
passes through unchanged. -/
def callbackNormalizePixel : RawPixel → ℕ
  | .floatVal x => (⌊(min 1 (max 0 x)) * 255⌋).toNat
  | .u8 v => v.val
  | .otherInt v => (v % 256).toNat

/-- Modelled from the spec: the identical normalization applied in the
evaluator's frame path (backend/app/training/evaluator.py, absent from
the snapshot), per errors.md section 2.1. -/
def evaluatorNormalizePixel : RawPixel → ℕ
  | .floatVal x => (⌊(min 1 (max 0 x)) * 255⌋).toNat
  | .u8 v => v.val
  | .otherInt v => (v % 256).toNat

/-- C6: for every raw pixel, a floating-point value x is mapped to the
truncation of clip(x,0,1) times 255, any other non-uint8 value is
coerced by a truncating cast; the two producer paths (training callback
and evaluator) apply one and the same normalization, and the output
always fits the 8-bit range. -/
theorem c6_normalization_shared (x : ℚ) (p : RawPixel) :
    callbackNormalizePixel (.floatVal x) = (⌊(min 1 (max 0 x)) * 255⌋).toNat
    ∧ callbackNormalizePixel p = evaluatorNormalizePixel p
    ∧ callbackNormalizePixel p ≤ 255 := by
  refine ⟨rfl, ?_, ?_⟩
  · cases p <;> rfl
  · cases p with
    | floatVal y =>
        have hle : min 1 (max 0 y) * 255 ≤ (255 : ℚ) := by
          have h1 : min 1 (max 0 y) ≤ 1 := min_le_left _ _
          calc min 1 (max 0 y) * 255 ≤ 1 * 255 :=
                mul_le_mul_of_nonneg_right h1 (by norm_num)
            _ = 255 := by norm_num
        have hfl : ⌊min 1 (max 0 y) * 255⌋ ≤ (255 : ℤ) := by
          have := Int.floor_mono hle
          simpa using this
        simpa [callbackNormalizePixel, Int.toNat_le] using hfl
    | u8 v =>
        have := v.isLt
        simp only [callbackNormalizePixel]
        omega
    | otherInt v =>
        have h1 : v % 256 < 256 := Int.emod_lt_of_pos v (by norm_num)
        have h2 : 0 ≤ v % 256 := Int.emod_nonneg v (by norm_num)
        simp only [callbackNormalizePixel]
        omega

/-- Append-only sequence-numbered log with a monotone id counter,
following SQLite AUTOINCREMENT semantics (backend/app/db/schema.sql
lines 22..31, events table): each appended row gets the next id above
every id ever assigned, and removing rows never lowers the counter, so
ids are never reused.  The metric stream's per-run episode counter
follows the same monotone-counter pattern (SSE ids in
docs/api-contract.md are the episode numbers).  The repository layer
performing the inserts is absent from the snapshot; this is modelled
from the schema. -/
structure SeqLog (α : Type) where
  rows : List (ℕ × α)
  seqCounter : ℕ
  deriving DecidableEq, Repr

/-- The empty log: no rows, counter zero. -/
def emptyLog (α : Type) : SeqLog α := ⟨[], 0⟩

/-- Insert a row: it receives id seqCounter + 1 and the counter
advances. -/
def appendRow {α : Type} (t : SeqLog α) (x : α) : SeqLog α :=
  { rows := t.rows ++ [(t.seqCounter + 1, x)], seqCounter := t.seqCounter + 1 }

/-- Operations on the log: insert a payload, or delete a row by id
(ON DELETE CASCADE may remove event rows; AUTOINCREMENT still never
reuses their ids). -/
inductive SeqLogOp (α : Type) where
  | append (x : α)
  | remove (id : ℕ)
  deriving DecidableEq, Repr

/-- Apply one operation. -/
def applySeqLogOp {α : Type} (t : SeqLog α) : SeqLogOp α → SeqLog α
  | .append x => appendRow t x
  | .remove i => { t with rows := t.rows.filter (fun r => r.1 ≠ i) }

/-- The log resulting from a sequence of operations on the empty log. -/
def runSeqLog {α : Type} (ops : List (SeqLogOp α)) : SeqLog α :=
  ops.foldl applySeqLogOp (emptyLog α)

/-- The ids assigned over time by a sequence of operations, starting
from counter c: the full history of sequence numbers ever handed out. -/
def assignedIdsFrom {α : Type} (c : ℕ) : List (SeqLogOp α) → List ℕ
  | [] => []
  | .append _ :: ops => (c + 1) :: assignedIdsFrom (c + 1) ops
  | .remove _ :: ops => assignedIdsFrom c ops

/-- Internal invariant: row ids are strictly increasing and bounded by
the counter. -/
def logInv {α : Type} (t : SeqLog α) : Prop :=
  (t.rows.map Prod.fst).Pairwise (· < ·) ∧ ∀ q ∈ t.rows, q.1 ≤ t.seqCounter

theorem logInv_apply {α : Type} (t : SeqLog α) (op : SeqLogOp α)
    (h : logInv t) : logInv (applySeqLogOp t op) := by
  obtain ⟨hpw, hle⟩ := h
  cases op with
  | append x =>
      constructor
      · rw [applySeqLogOp, appendRow, List.map_append, List.pairwise_append]
        refine ⟨hpw, List.pairwise_singleton _ _, ?_⟩
        intro a ha b hb
        simp only [List.map_cons, List.map_nil, List.mem_singleton] at hb
        subst hb
        obtain ⟨q, hq, rfl⟩ := List.mem_map.mp ha
        exact Nat.lt_succ_of_le (hle q hq)
      · intro q hq
        rw [applySeqLogOp, appendRow] at hq
        simp only [List.mem_append, List.mem_singleton] at hq
        rcases hq with hq | rfl
        · exact Nat.le_succ_of_le (hle q hq)
        · rfl
  | remove i =>
      constructor
      · exact hpw.sublist ((t.rows.filter_sublist).map Prod.fst)
      · intro q hq
        exact hle q (List.mem_of_mem_filter hq)

theorem logInv_runFrom {α : Type} (ops : List (SeqLogOp α)) :
    ∀ t : SeqLog α, logInv t → logInv (ops.foldl applySeqLogOp t) := by
  induction ops with
  | nil => intro t h; exact h
  | cons op ops ih =>
      intro t h
      rw [List.foldl_cons]
      exact ih _ (logInv_apply t op h)

theorem assignedIdsFrom_mono {α : Type} (ops : List (SeqLogOp α)) :
    ∀ c : ℕ, (assignedIdsFrom c ops).Pairwise (· < ·)
      ∧ ∀ x ∈ assignedIdsFrom (α := α) c ops, c < x := by
  induction ops with
  | nil => intro c; exact ⟨List.Pairwise.nil, by intro x hx; cases hx⟩
  | cons op ops ih =>
      intro c
      cases op with
      | append y =>
          obtain ⟨hpw, hgt⟩ := ih (c + 1)
          refine ⟨?_, ?_⟩
          · rw [assignedIdsFrom]
            exact List.Pairwise.cons (fun x hx => hgt x hx) hpw
          · intro x hx
            rw [assignedIdsFrom] at hx
            rcases List.mem_cons.mp hx with rfl | hx
            · exact Nat.lt_succ_self c
            · exact Nat.lt_of_succ_lt (hgt x hx)
      | remove i =>
          obtain ⟨hpw, hgt⟩ := ih c
          exact ⟨hpw, hgt⟩

/-- C7: for any operation history on a run's sequence-numbered log
(event log per the events table schema; the metric episode log follows
the same counter discipline), the full history of assigned sequence
numbers is strictly increasing — an id is never reused, even after
deletions — the ids stored in the log remain strictly increasing, and
hence the sequence numbers observed by any single subscriber reading the
log in order (any sublist of it) are strictly increasing with no
duplicates. -/
theorem c7_sequence_monotonic {α : Type} (ops : List (SeqLogOp α)) (obs : List ℕ)
    (hobs : obs.Sublist ((runSeqLog ops).rows.map Prod.fst)) :
    (assignedIdsFrom 0 ops).Pairwise (· < ·)
    ∧ ((runSeqLog ops).rows.map Prod.fst).Pairwise (· < ·)
    ∧ obs.Pairwise (· < ·) := by
  have hinv : logInv (runSeqLog ops) := by
    apply logInv_runFrom
    exact ⟨List.Pairwise.nil, by intro q hq; cases hq⟩
  refine ⟨(assignedIdsFrom_mono ops 0).1, hinv.1, hinv.1.sublist hobs⟩

/-- C7 witness: a concrete history with two inserts, a cascade delete of
row 1 and a further insert; the observed ids are those of the resulting
rows, read in full. -/
theorem c7_sequence_monotonic_witness :
    (assignedIdsFrom 0
      [SeqLogOp.append "training_started", SeqLogOp.append "checkpoint_saved",
       SeqLogOp.remove 1, SeqLogOp.append "warning"]).Pairwise (· < ·)
    ∧ ((runSeqLog
        [SeqLogOp.append "training_started", SeqLogOp.append "checkpoint_saved",
         SeqLogOp.remove 1, SeqLogOp.append "warning"]).rows.map Prod.fst).Pairwise (· < ·)
    ∧ ((runSeqLog
        [SeqLogOp.append "training_started", SeqLogOp.append "checkpoint_saved",
         SeqLogOp.remove 1, SeqLogOp.append "warning"]).rows.map Prod.fst).Pairwise (· < ·) :=
  c7_sequence_monotonic
    [SeqLogOp.append "training_started", SeqLogOp.append "checkpoint_saved",
     SeqLogOp.remove 1, SeqLogOp.append "warning"]
    ((runSeqLog
        [SeqLogOp.append "training_started", SeqLogOp.append "checkpoint_saved",
         SeqLogOp.remove 1, SeqLogOp.append "warning"]).rows.map Prod.fst)
    (List.Sublist.refl _)

/-- Modelled from the spec: the state of the backend metrics throttle
(the SSE streaming layer is absent from the snapshot; behaviour per
docs/api-contract.md line 606: maximum 4 updates per second, if metrics
arrive faster only the latest is sent): the time of the last delivery,
and the most recent sample that arrived inside the closed window and is
still waiting to be delivered at the next tick.  Times are milliseconds,
sample values are abstracted as naturals. -/
structure ThrottleState where
  lastDelivery : Option ℕ
  pending : Option ℕ
  deriving DecidableEq, Repr

/-- Processing one published sample (time, value): deliver immediately
if a full interval has passed since the last delivery (first delivering
any sample that was waiting for the intervening tick); otherwise retain
it as the single pending sample, overwriting any older pending one
(coalescing keeps only the most recent). -/
def throttleStep (interval : ℕ) (s : ThrottleState) (p : ℕ × ℕ) :
    ThrottleState × List (ℕ × ℕ) :=
  match s.lastDelivery with
  | none => (⟨some p.1, none⟩, [p])
  | some ld =>
    if ld + interval ≤ p.1 then
      match s.pending with
      | none => (⟨some p.1, none⟩, [p])
      | some vp =>
        if ld + interval + interval ≤ p.1 then
          (⟨some p.1, none⟩, [(ld + interval, vp), p])
        else
          (⟨some (ld + interval), some p.2⟩, [(ld + interval, vp)])
    else
      (⟨some ld, some p.2⟩, [])

/-- Processing a sequence of published samples in order, returning the
final state and the deliveries emitted along the way. -/
def throttleRun (interval : ℕ) : ThrottleState → List (ℕ × ℕ) → ThrottleState × List (ℕ × ℕ)
  | s, [] => (s, [])
  | s, p :: ps =>
    ((throttleRun interval (throttleStep interval s p).1 ps).1,
     (throttleStep interval s p).2 ++ (throttleRun interval (throttleStep interval s p).1 ps).2)

/-- The trailing delivery: a sample still pending when publishing ends
is delivered at the next tick after the last delivery. -/
def throttleFlush (interval : ℕ) (s : ThrottleState) : List (ℕ × ℕ) :=
  match s.lastDelivery, s.pending with
  | some ld, some v => [(ld + interval, v)]
  | _, _ => []

/-- All deliveries a connected subscriber receives for a given publish
sequence: the in-flight deliveries followed by the trailing flush. -/
def throttleDeliveries (interval : ℕ) (pubs : List (ℕ × ℕ)) : List (ℕ × ℕ) :=
  (throttleRun interval ⟨none, none⟩ pubs).2
    ++ throttleFlush interval (throttleRun interval ⟨none, none⟩ pubs).1

/-- A list of times whose consecutive entries are at least d apart. -/
def spaced (d : ℕ) : List ℕ → Prop
  | [] => True
  | [_] => True
  | x :: y :: rest => x + d ≤ y ∧ spaced d (y :: rest)

theorem spaced_tail {d x : ℕ} {l : List ℕ} (h : spaced d (x :: l)) : spaced d l := by
  cases l with
  | nil => trivial
  | cons y ys => exact h.2

theorem spaced_head_le {d x : ℕ} {l : List ℕ} (h : spaced d (x :: l)) :
    ∀ y ∈ l, x + d ≤ y := by
  induction l generalizing x with
  | nil => intro y hy; cases hy
  | cons z zs ih =>
      intro y hy
      rcases List.mem_cons.mp hy with rfl | hy
      · exact h.1
      · have hz := ih (x := z) h.2 y hy
        have hx := h.1
        omega

theorem spaced_append_one {d : ℕ} : ∀ {l : List ℕ} {y : ℕ}, spaced d l →
    (∀ x, l.getLast? = some x → x + d ≤ y) → spaced d (l ++ [y]) := by
  intro l
  induction l with
  | nil => intro y _ _; trivial
  | cons x xs ih =>
      intro y h h2
      cases xs with
      | nil =>
          exact ⟨h2 x rfl, trivial⟩
      | cons z zs =>
          refine ⟨h.1, ?_⟩
          exact ih h.2 (fun w hw => h2 w (by rw [List.getLast?_cons_cons]; exact hw))

theorem spaced_append_two {d : ℕ} {l : List ℕ} {y z : ℕ} (h : spaced d l)
    (h2 : ∀ x, l.getLast? = some x → x + d ≤ y) (h3 : y + d ≤ z) :
    spaced d (l ++ [y, z]) := by
  have heq : l ++ [y, z] = (l ++ [y]) ++ [z] := by simp
  rw [heq]
  apply spaced_append_one (spaced_append_one h h2)
  intro w hw
  rw [getLast?_append_singleton] at hw
  injection hw with hw
  subst hw
  exact h3

theorem spaced_filter_length_le (d : ℕ) (q : ℕ × ℕ → Bool) :
    ∀ (l : List (ℕ × ℕ)) (a k : ℕ),
      (∀ x, q x = true → x.1 < a + k * d) →
      spaced d (l.map Prod.fst) → (∀ x ∈ l, a ≤ x.1) →
      (l.filter q).length ≤ k := by
  intro l
  induction l with
  | nil => intro a k _ _ _; simp
  | cons x xs ih =>
      intro a k hq hsp hge
      have hspx : spaced d (x.1 :: xs.map Prod.fst) := by simpa using hsp
      by_cases hx : x.1 < a + k * d
      · cases k with
        | zero =>
            exfalso
            have hax := hge x (List.mem_cons_self x xs)
            simp at hx
            omega
        | succ k₂ =>
            have hge' : ∀ y ∈ xs, a + d ≤ y.1 := by
              intro y hy
              have h1 : x.1 + d ≤ y.1 :=
                spaced_head_le hspx y.1 (List.mem_map_of_mem Prod.fst hy)
              have h2 := hge x (List.mem_cons_self x xs)
              omega
            have hq' : ∀ z, q z = true → z.1 < (a + d) + k₂ * d := by
              intro z hz
              have h1 := hq z hz
              rw [Nat.succ_mul] at h1
              omega
            have htail := ih (a + d) k₂ hq' (spaced_tail hspx) hge'
            rw [List.filter_cons]
            cases hqx : q x
            · simpa using Nat.le_succ_of_le htail
            · simpa using Nat.succ_le_succ htail
      · have hqx : q x = false := by
          cases hqx : q x
          · rfl
          · exact absurd (hq x hqx) hx
        have hxs : xs.filter q = [] := by
          rw [List.filter_eq_nil_iff]
          intro y hy hqy
          have h1 := hq y hqy
          have h2 : x.1 + d ≤ y.1 :=
            spaced_head_le hspx y.1 (List.mem_map_of_mem Prod.fst hy)
          omega
        rw [List.filter_cons, hqx]
        simp [hxs]

/-- Invariant tying a throttle state to the deliveries emitted so far:
delivery times are at least one interval apart and no earlier than a,
and the recorded last-delivery time is the time of the newest delivery. -/
def outOk (d a : ℕ) (s : ThrottleState) (out : List (ℕ × ℕ)) : Prop :=
  spaced d (out.map Prod.fst)
  ∧ (∀ q ∈ out, a ≤ q.1)
  ∧ (match s.lastDelivery with
     | none => out = [] ∧ s.pending = none
     | some ld => (out.map Prod.fst).getLast? = some ld ∧ a ≤ ld)

/-- Invariant tying the throttle state and deliveries to the value of
the most recently published sample: either that sample is the pending
one, or it was the newest delivery; with no publish yet, nothing was
delivered. -/
def valOk (s : ThrottleState) (out : List (ℕ × ℕ)) (lp : Option ℕ) : Prop :=
  match s.pending, lp with
  | some v, some w => v = w
  | some _, none => False
  | none, some w => ∃ q, out.getLast? = some q ∧ q.2 = w
  | none, none => out = []

theorem throttleStep_inv (d a : ℕ) (s : ThrottleState) (out : List (ℕ × ℕ))
    (lp : Option ℕ) (p : ℕ × ℕ) (hp : a ≤ p.1)
    (h1 : outOk d a s out) (h2 : valOk s out lp) :
    outOk d a (throttleStep d s p).1 (out ++ (throttleStep d s p).2)
    ∧ valOk (throttleStep d s p).1 (out ++ (throttleStep d s p).2) (some p.2) := by
  obtain ⟨hsp, hge, hlast⟩ := h1
  obtain ⟨lastD, pend⟩ := s
  cases lastD with
  | none =>
      obtain ⟨rfl, rfl⟩ := hlast
      simp only [throttleStep, List.nil_append]
      refine ⟨⟨trivial, ?_, ?_, hp⟩, ?_⟩
      · intro q hq
        rw [List.mem_singleton] at hq
        subst hq
        exact hp
      · rfl
      · exact ⟨p, rfl, rfl⟩
  | some ld =>
      obtain ⟨hld1, hld2⟩ := hlast
      by_cases hgap : ld + d ≤ p.1
      · cases pend with
        | none =>
            simp only [throttleStep, hgap, if_true]
            refine ⟨⟨?_, ?_, ?_, hp⟩, ?_⟩
            · rw [List.map_append]
              apply spaced_append_one hsp
              intro x hx
              rw [hld1] at hx
              injection hx with hx
              subst hx
              exact hgap
            · intro q hq
              rcases List.mem_append.mp hq with hq | hq
              · exact hge q hq
              · rw [List.mem_singleton] at hq
                subst hq
                exact hp
            · rw [List.map_append]
              exact getLast?_append_singleton _ _
            · exact ⟨p, getLast?_append_singleton _ _, rfl⟩
        | some vp =>
            by_cases hgap2 : ld + d + d ≤ p.1
            · simp only [throttleStep, hgap, hgap2, if_true]
              refine ⟨⟨?_, ?_, ?_, hp⟩, ?_⟩
              · rw [List.map_append]
                apply spaced_append_two hsp _ hgap2
                intro x hx
                rw [hld1] at hx
                injection hx with hx
                subst hx
                exact Nat.le_refl _
              · intro q hq
                rcases List.mem_append.mp hq with hq | hq
                · exact hge q hq
                · rcases List.mem_cons.mp hq with rfl | hq
                  · simp; omega
                  · rw [List.mem_singleton] at hq
                    subst hq
                    exact hp
              · have heq : out ++ [(ld + d, vp), p] = (out ++ [(ld + d, vp)]) ++ [p] := by
                  simp
                rw [heq, List.map_append]
                exact getLast?_append_singleton _ _
              · have heq : out ++ [(ld + d, vp), p] = (out ++ [(ld + d, vp)]) ++ [p] := by
                  simp
                rw [heq]
                exact ⟨p, getLast?_append_singleton _ _, rfl⟩
            · simp only [throttleStep, hgap, hgap2, if_true, if_false]
              refine ⟨⟨?_, ?_, ?_, ?_⟩, ?_⟩
              · rw [List.map_append]
                apply spaced_append_one hsp
                intro x hx
                rw [hld1] at hx
                injection hx with hx
                subst hx
                exact Nat.le_refl _
              · intro q hq
                rcases List.mem_append.mp hq with hq | hq
                · exact hge q hq
                · rw [List.mem_singleton] at hq
                  subst hq
                  simp
                  omega
              · rw [List.map_append]
                exact getLast?_append_singleton _ _
              · omega
              · rfl
      · simp only [throttleStep, hgap, if_false]
        refine ⟨⟨?_, ?_, ?_, hld2⟩, rfl⟩
        · simpa using hsp
        · intro q hq
          rw [List.append_nil] at hq
          exact hge q hq
        · simpa using hld1

/-- The value of the most recent publish: the last of ps if nonempty,
otherwise the value carried in from before. -/
def lastPubVal (ps : List (ℕ × ℕ)) (lp : Option ℕ) : Option ℕ :=
  match ps.getLast? with
  | some q => some q.2
  | none => lp

theorem lastPubVal_cons (p : ℕ × ℕ) (ps : List (ℕ × ℕ)) (lp : Option ℕ) :
    lastPubVal (p :: ps) lp = lastPubVal ps (some p.2) := by
  cases ps with
  | nil => rfl
  | cons r rs =>
      cases hr : (r :: rs).getLast? with
      | none =>
          exfalso
          rw [List.getLast?_eq_none_iff] at hr
          cases hr
      | some w =>
          simp [lastPubVal, List.getLast?_cons_cons, hr]

theorem throttleRun_inv (d a : ℕ) :
    ∀ (ps : List (ℕ × ℕ)) (s : ThrottleState) (out : List (ℕ × ℕ)) (lp : Option ℕ),
      (∀ p ∈ ps, a ≤ p.1) → outOk d a s out → valOk s out lp →
      outOk d a (throttleRun d s ps).1 (out ++ (throttleRun d s ps).2)
      ∧ valOk (throttleRun d s ps).1 (out ++ (throttleRun d s ps).2) (lastPubVal ps lp) := by
  intro ps
  induction ps with
  | nil =>
      intro s out lp hin h1 h2
      simpa [throttleRun, lastPubVal] using ⟨h1, h2⟩
  | cons p ps ih =>
      intro s out lp hin h1 h2
      have hp : a ≤ p.1 := hin p (List.mem_cons_self _ _)
      have hstep := throttleStep_inv d a s out lp p hp h1 h2
      have hrest := ih (throttleStep d s p).1 (out ++ (throttleStep d s p).2) (some p.2)
        (fun q hq => hin q (List.mem_cons_of_mem _ hq)) hstep.1 hstep.2
      rw [lastPubVal_cons]
      simp only [throttleRun]
      rw [← List.append_assoc]
      exact hrest

/-- C5: publishing 100 metric samples within one second through the
250 ms metrics throttle results in at most 4 deliveries whose time lies
within that second, the subscriber receives at least one delivery, and
the value of the last delivery equals the value of the last published
sample (coalescing keeps the most recent sample). -/
theorem c5_throttle_bound (t0 : ℕ) (pubs : List (ℕ × ℕ))
    (hlen : pubs.length = 100)
    (hin : ∀ p ∈ pubs, t0 ≤ p.1 ∧ p.1 < t0 + 1000) :
    ((throttleDeliveries 250 pubs).filter
        (fun q => t0 ≤ q.1 ∧ q.1 < t0 + 1000)).length ≤ 4
    ∧ throttleDeliveries 250 pubs ≠ []
    ∧ ((throttleDeliveries 250 pubs).getLast?).map Prod.snd
        = (pubs.getLast?).map Prod.snd := by
  have hinit1 : outOk 250 t0 (⟨none, none⟩ : ThrottleState) [] :=
    ⟨trivial, fun q hq => absurd hq (List.not_mem_nil q), rfl, rfl⟩
  have hinit2 : valOk (⟨none, none⟩ : ThrottleState) [] none := rfl
  have hmain := throttleRun_inv 250 t0 pubs ⟨none, none⟩ [] none
    (fun p hp => (hin p hp).1) hinit1 hinit2
  rw [List.nil_append] at hmain
  have hne : pubs ≠ [] := by
    intro h
    rw [h] at hlen
    simp at hlen
  obtain ⟨q0, hq0⟩ : ∃ q0, pubs.getLast? = some q0 := by
    rcases hq : pubs.getLast? with _ | q0
    · rw [List.getLast?_eq_none_iff] at hq
      exact absurd hq hne
    · exact ⟨q0, rfl⟩
  have hlp : lastPubVal pubs none = some q0.2 := by
    unfold lastPubVal
    rw [hq0]
  rw [hlp] at hmain
  obtain ⟨⟨hsp, hge, hlast⟩, hval⟩ := hmain
  have hqbound : ∀ x : ℕ × ℕ,
      (fun q : ℕ × ℕ => decide (t0 ≤ q.1 ∧ q.1 < t0 + 1000)) x = true
      → x.1 < t0 + 4 * 250 := by
    intro x hx
    have := of_decide_eq_true hx
    omega
  unfold throttleDeliveries
  rcases hpend : (throttleRun 250 (⟨none, none⟩ : ThrottleState) pubs).1.pending
    with _ | v
  · have hflush :
        throttleFlush 250 (throttleRun 250 (⟨none, none⟩ : ThrottleState) pubs).1 = [] := by
      unfold throttleFlush
      rw [hpend]
      rcases (throttleRun 250 (⟨none, none⟩ : ThrottleState) pubs).1.lastDelivery
        with _ | ld <;> rfl
    rw [hflush, List.append_nil]
    simp only [valOk, hpend] at hval
    obtain ⟨q, hq, hq2⟩ := hval
    refine ⟨?_, ?_, ?_⟩
    · exact spaced_filter_length_le 250 _ _ t0 4 hqbound hsp hge
    · intro h
      rw [h] at hq
      cases hq
    · rw [hq, hq0, Option.map_some', Option.map_some', hq2]
  · simp only [valOk, hpend] at hval
    rcases hld : (throttleRun 250 (⟨none, none⟩ : ThrottleState) pubs).1.lastDelivery
      with _ | ld
    · exfalso
      simp only [hld] at hlast
      rw [hlast.2] at hpend
      cases hpend
    · simp only [hld] at hlast
      obtain ⟨hlast1, hlast2⟩ := hlast
      have hflush :
          throttleFlush 250 (throttleRun 250 (⟨none, none⟩ : ThrottleState) pubs).1
            = [(ld + 250, v)] := by
        unfold throttleFlush
        rw [hpend, hld]
      rw [hflush]
      have hsp' : spaced 250
          (((throttleRun 250 (⟨none, none⟩ : ThrottleState) pubs).2
            ++ [(ld + 250, v)]).map Prod.fst) := by
        rw [List.map_append]
        apply spaced_append_one hsp
        intro x hx
        rw [hlast1] at hx
        injection hx with hx
        subst hx
        exact Nat.le_refl _
      have hge' : ∀ x ∈ (throttleRun 250 (⟨none, none⟩ : ThrottleState) pubs).2
          ++ [(ld + 250, v)], t0 ≤ x.1 := by
        intro x hx
        rcases List.mem_append.mp hx with hx | hx
        · exact hge x hx
        · rw [List.mem_singleton] at hx
          subst hx
          simp
          omega
      refine ⟨?_, ?_, ?_⟩
      · exact spaced_filter_length_le 250 _ _ t0 4 hqbound hsp' hge'
      · simp
      · rw [getLast?_append_singleton, hq0, Option.map_some', Option.map_some', hval]

/-- C5 witness: 100 samples published 10 ms apart starting at time 0,
with values 0..99; deliveries within the first second number at most 4
and the last delivered value is 99, the last published value. -/
theorem c5_throttle_bound_witness :
    ((throttleDeliveries 250 ((List.range 100).map (fun i => (10 * i, i)))).filter
        (fun q => 0 ≤ q.1 ∧ q.1 < 0 + 1000)).length ≤ 4
    ∧ throttleDeliveries 250 ((List.range 100).map (fun i => (10 * i, i))) ≠ []
    ∧ ((throttleDeliveries 250 ((List.range 100).map (fun i => (10 * i, i)))).getLast?).map
          Prod.snd
        = (((List.range 100).map (fun i => (10 * i, i))).getLast?).map Prod.snd :=
  c5_throttle_bound 0 ((List.range 100).map (fun i => (10 * i, i)))
    (by simp) (by decide)
